import Mathlib

set_option maxHeartbeats 1600000

namespace Routing

/-! # Shallow embedding of the routing repository

Two routers are modelled: the Distance-Vector router (`src/DVrouter.py`)
and the Link-State router (`src/LSrouter.py`).  Python dicts are modelled
as insertion-ordered association lists with string keys; machine state is
an explicit record threaded through each event handler; each handler
returns the new state together with the list of packets it emitted via
`self.send`.  Values arriving from JSON packet payloads are modelled by an
explicit dynamic-value type, since the Python code is dynamically typed. -/

/-! ## Association-list model of Python dicts (insertion-ordered) -/

/-- Dict lookup: `d.get(k)`, returning the value of the first entry with key
`k` (keys are unique in every dict the handlers build). -/
def dget {α : Type} : List (String × α) → String → Option α
  | [], _ => none
  | (k', v) :: t, k => if k' = k then some v else dget t k

/-- Dict assignment `d[k] = v`: replaces the value in place if the key is
present (keeping its position, as Python dicts do), appends otherwise. -/
def dset {α : Type} : List (String × α) → String → α → List (String × α)
  | [], k, v => [(k, v)]
  | (k', v') :: t, k, v => if k' = k then (k, v) :: t else (k', v') :: dset t k v

/-- Dict deletion `d.pop(k)` for dicts with unique keys. -/
def dpop {α : Type} (l : List (String × α)) (k : String) : List (String × α) :=
  l.filter (fun kv => kv.1 != k)

/-! ## Dynamic (JSON-derived) Python values

A DV routing payload is a JSON object mapping destination strings to
arbitrary JSON values; the sanitization step in `DVrouter.handle_packet`
inspects them dynamically.  Finite floats are represented exactly by
rationals; NaN and the two infinities get their own constructors since
their comparison behaviour differs.  Lists/objects/strings/null are
lumped per shape: sanitization replaces all of them by `INF` before they
can flow anywhere else. -/

inductive PyVal : Type where
  | vint (n : Int)
  | vbool (b : Bool)
  | vfloat (q : Rat)
  | vnan
  | vinf
  | vninf
  | vstr (s : String)
  | vnull
  | vlist
  | vdict
deriving DecidableEq

/-- Numeric value of an int/bool/finite-float, `none` otherwise
(`True`/`False` count as `1`/`0`, as in Python). -/
def pyToQ : PyVal → Option Rat
  | .vint n => some (n : Rat)
  | .vbool b => some (if b then 1 else 0)
  | .vfloat q => some q
  | _ => none

/-- Python `isinstance(c, (int, float))`: ints, bools (a subclass of
`int`), and all floats including NaN and the infinities. -/
def pyIsNum : PyVal → Bool
  | .vint _ => true
  | .vbool _ => true
  | .vfloat _ => true
  | .vnan => true
  | .vinf => true
  | .vninf => true
  | _ => false

/-- Python `c < 0` on a value that passed the `isinstance` check.
NaN compares false; `-inf < 0` is true. -/
def pyLtZero : PyVal → Bool
  | .vnan => false
  | .vinf => false
  | .vninf => true
  | v => match pyToQ v with
         | some q => decide (q < 0)
         | none => false

/-- Python `c >= 16` on a value that passed the `isinstance` check.
NaN compares false; `inf >= 16` is true. -/
def pyGeInf : PyVal → Bool
  | .vnan => false
  | .vinf => true
  | .vninf => false
  | v => match pyToQ v with
         | some q => decide (16 ≤ q)
         | none => false

/-- Python `==` between two JSON-derived values as used by dict
comparison: numeric values compare by value (`3 == 3.0`, `True == 1`),
NaN is unequal to everything (the handler always compares two distinct
freshly-parsed objects, so the CPython identity shortcut never applies),
strings and null compare structurally.  The opaque list/dict markers
compare unequal; sanitized vectors never contain them. -/
def pyValEqB : PyVal → PyVal → Bool
  | .vnan, _ => false
  | _, .vnan => false
  | .vinf, .vinf => true
  | .vninf, .vninf => true
  | .vstr a, .vstr b => a == b
  | .vnull, .vnull => true
  | a, b => match pyToQ a, pyToQ b with
            | some x, some y => x == y
            | _, _ => false

/-- Python `!=` between two string-keyed dicts of dynamic values
(equal iff same key set and pairwise-`==` values). -/
def vecEqB (a b : List (String × PyVal)) : Bool :=
  a.length == b.length &&
    a.all (fun kv => match dget b kv.1 with
                     | some w => pyValEqB kv.2 w
                     | none => false) &&
    b.all (fun kv => match dget a kv.1 with
                     | some w => pyValEqB kv.2 w
                     | none => false)

/-- Python `!=` between two string-keyed dicts of numbers (used for the
DV change detection on `new_dv` / `new_fwd`). -/
def numDictEqB {α : Type} [BEq α] (a b : List (String × α)) : Bool :=
  a.length == b.length &&
    a.all (fun kv => dget b kv.1 == some kv.2) &&
    b.all (fun kv => dget a kv.1 == some kv.2)

/-! ## DV router (`src/DVrouter.py`) -/

/-- DV protocol infinity, `DVrouter.INF`. -/
def INF : Int := 16

/-- State of a `DVrouter` instance.  `dv` holds `self.dv`; its values are
rationals because accepted neighbour costs may be non-integer floats
(sanitization keeps any float in `[0, 16)`), and Python's `==`
identifies `3` with `3.0`. -/
structure DVState : Type where
  addr : String
  heartbeat : Int
  lastBroadcast : Int
  /-- `self.neighbors : nbr → (port, link_cost)` -/
  neighbors : List (String × Int × Int)
  /-- `self.neighbor_vectors : nbr → (dest → cost)` (post-sanitization) -/
  neighborVectors : List (String × List (String × PyVal))
  /-- `self.dv : dest → cost` -/
  dv : List (String × Rat)
  /-- `self.forward : dest → port` -/
  forward : List (String × Int)
deriving DecidableEq

/-- `DVrouter.__init__`. -/
def dvInit (addr : String) (heartbeat : Int) : DVState :=
  { addr := addr, heartbeat := heartbeat, lastBroadcast := 0,
    neighbors := [], neighborVectors := [], dv := [(addr, 0)], forward := [] }

/-- A packet emitted by a DV handler via `self.send`. -/
inductive DVSend : Type where
  | routing (port : Int) (dst : String) (vec : List (String × Rat))
  | data (port : Int) (dst : String)
deriving DecidableEq

/-- One entry of the sanitization loop in `DVrouter.handle_packet`:
`if not isinstance(c, (int, float)) or c < 0 or c >= self.INF:
their_vector[d] = self.INF`. -/
def sanitizeVal (c : PyVal) : PyVal :=
  if !pyIsNum c || pyLtZero c || pyGeInf c then .vint INF else c

/-- The whole sanitization loop over an inbound vector. -/
def dvSanitize (vec : List (String × PyVal)) : List (String × PyVal) :=
  vec.map (fun kv => (kv.1, sanitizeVal kv.2))

/-- `link_cost + nbr_vec.get(dest, INF)` in `_recompute_routes`, as an
optional rational: `none` means the sum is NaN (such a candidate never
wins the strict `<` comparison, exactly like NaN in Python).  Stored
vectors are always sanitized, so the non-numeric and infinite shapes can
never occur here; they are mapped to `none` as well. -/
def candCost (link : Int) (vec : List (String × PyVal)) (dest : String) : Option Rat :=
  match dget vec dest with
  | none => some ((link : Rat) + 16)
  | some v =>
    match v with
    | .vint n => some ((link : Rat) + (n : Rat))
    | .vbool b => some ((link : Rat) + (cond b 1 0))
    | .vfloat q => some ((link : Rat) + q)
    | _ => none

/-- The inner loop of `_recompute_routes` for one destination: fold over
the neighbour table keeping `(best_cost, best_port)`, starting from
`(INF, None)`, updating on strict improvement. -/
def bestStep (nv : List (String × List (String × PyVal))) (dest : String)
    (acc : Rat × Option Int) (entry : String × Int × Int) : Rat × Option Int :=
  let vec := (dget nv entry.1).getD []
  match candCost entry.2.2 vec dest with
  | none => acc
  | some c => if c < acc.1 then (c, some entry.2.1) else acc

/-- `(best_cost, best_port)` for one destination. -/
def bestFor (s : DVState) (dest : String) : Rat × Option Int :=
  s.neighbors.foldl (bestStep s.neighborVectors dest) ((16 : Rat), none)

/-- The candidate destination set of `_recompute_routes` (a Python `set`;
iteration order is arbitrary there, and the computed dicts do not depend
on it, so a deduplicated list is used). -/
def dvDests (s : DVState) : List String :=
  (s.addr :: (s.dv.map Prod.fst ++ s.neighbors.map Prod.fst ++
    (s.neighborVectors.map (fun kv => kv.2.map Prod.fst)).flatten)).dedup

/-- One row of the tables `_recompute_routes` builds: a destination other
than `self.addr` whose best cost beats `INF`, together with that cost and
the winning port.  (`best_port` is always set when `best_cost < INF`,
since both are updated together.) -/
def dvRow (s : DVState) (dest : String) : Option (String × Rat × Int) :=
  if dest = s.addr then none
  else
    let bc := bestFor s dest
    if bc.1 < 16 then
      match bc.2 with
      | some p => some (dest, bc.1, p)
      | none => none
    else none

/-- The pair `(new_dv, new_fwd)` computed by `_recompute_routes`. -/
def dvCompute (s : DVState) : List (String × Rat) × List (String × Int) :=
  let rows := (dvDests s).filterMap (dvRow s)
  ((s.addr, 0) :: rows.map (fun r => (r.1, r.2.1)),
   rows.map (fun r => (r.1, r.2.2)))

/-- `DVrouter._recompute_routes`: swap the new tables in (clamping `dv`
values with `min(c, INF)`) iff either differs from the stored one; the
returned boolean is `changed`. -/
def dvRecompute (s : DVState) : DVState × Bool :=
  let nd := (dvCompute s).1
  let nf := (dvCompute s).2
  let changed := !(numDictEqB nd s.dv) || !(numDictEqB nf s.forward)
  if changed then
    ({ s with dv := nd.map (fun kv => (kv.1, min kv.2 16)), forward := nf }, true)
  else (s, false)

/-- The poisoned vector built by `DVrouter._send_vector_to_neighbor`:
`{d: (INF if self.forward.get(d) == port and d != nbr_addr else c)
for d, c in self.dv.items()}`. -/
def dvAdvertVec (s : DVState) (nbrAddr : String) (port : Int) : List (String × Rat) :=
  s.dv.map (fun kv =>
    (kv.1, if dget s.forward kv.1 = some port ∧ kv.1 ≠ nbrAddr then (16 : Rat) else kv.2))

/-- `DVrouter._send_vector_to_neighbor` as the packet it emits. -/
def dvSendVec (s : DVState) (nbrAddr : String) (port : Int) : DVSend :=
  .routing port nbrAddr (dvAdvertVec s nbrAddr port)

/-- `DVrouter._broadcast_vector`. -/
def dvBroadcast (s : DVState) : List DVSend :=
  s.neighbors.map (fun nb => dvSendVec s nb.1 nb.2.1)

/-- Events a `DVrouter` receives from the simulator.  A routing packet
carries its source address and its decoded content: `none` models a
`json.JSONDecodeError` in `json.loads` (caught: silent drop). -/
inductive DVEvent : Type where
  | pktData (port : Int) (dst : String)
  | pktRouting (port : Int) (src : String) (content : Option (List (String × PyVal)))
  | newLink (port : Int) (endpoint : String) (cost : Int)
  | removeLink (port : Int)
  | time (t : Int)
deriving DecidableEq

/-- Result of one DV handler call: final state plus emitted packets. -/
structure DVRes : Type where
  state : DVState
  sends : List DVSend
deriving DecidableEq

/-- The state of `DVrouter.handle_remove_link` just after the neighbour
and purge deletions, i.e. the state `_recompute_routes` is called on:
`removed` is the neighbour found bound to the port (if any). -/
def dvRemovePurged (s : DVState) (port : Int) (removed : String) : DVState :=
  { s with
    neighbors := dpop s.neighbors removed,
    neighborVectors := dpop s.neighborVectors removed,
    forward := s.forward.filter (fun kv => kv.2 != port),
    dv := s.dv.filter (fun kv => !(dget s.forward kv.1 == some port)) }

/-- The test `self.neighbor_vectors.get(nbr_addr) != their_vector`,
negated: `true` iff a stored vector exists and equals the sanitized
inbound one (a missing stored vector, `None`, is never equal). -/
def dvSameStored (s : DVState) (src : String)
    (sanitized : List (String × PyVal)) : Bool :=
  match dget s.neighborVectors src with
  | some old => vecEqB old sanitized
  | none => false

/-- `DVrouter.handle_packet`, routing branch, after a successful
`json.loads` of the content dict. -/
def dvHandleRouting (s : DVState) (port : Int) (src : String)
    (vec : List (String × PyVal)) : DVRes :=
  let sanitized := dvSanitize vec
  match dget s.neighbors src with
  | none => ⟨s, []⟩
  | some pc =>
    if pc.1 ≠ port then ⟨s, []⟩
    else
      if dvSameStored s src sanitized then ⟨s, []⟩
      else
        let s1 := { s with neighborVectors := dset s.neighborVectors src sanitized }
        let rc := dvRecompute s1
        if rc.2 then ⟨rc.1, dvBroadcast rc.1⟩ else ⟨rc.1, []⟩

/-- The four `DVrouter` event handlers as one step function. -/
def dvStep (s : DVState) (e : DVEvent) : DVRes :=
  match e with
  | .pktData _ dst =>
    match dget s.forward dst with
    | some p => ⟨s, [.data p dst]⟩
    | none => ⟨s, []⟩
  | .pktRouting port src content =>
    match content with
    | none => ⟨s, []⟩
    | some vec => dvHandleRouting s port src vec
  | .newLink port endpoint cost =>
    let s1 := { s with
      neighbors := dset s.neighbors endpoint (port, cost),
      neighborVectors :=
        match dget s.neighborVectors endpoint with
        | some _ => s.neighborVectors
        | none => dset s.neighborVectors endpoint [(endpoint, .vint 0)] }
    let rc := dvRecompute s1
    if rc.2 then ⟨rc.1, dvBroadcast rc.1⟩
    else ⟨rc.1, [dvSendVec rc.1 endpoint port]⟩
  | .removeLink port =>
    match s.neighbors.find? (fun nb => nb.2.1 == port) with
    | none => ⟨s, []⟩
    | some nb =>
      let s1 := dvRemovePurged s port nb.1
      let rc := dvRecompute s1
      if rc.2 then ⟨rc.1, dvBroadcast rc.1⟩ else ⟨rc.1, []⟩
  | .time t =>
    if s.lastBroadcast + s.heartbeat ≤ t then
      let s1 := { s with lastBroadcast := t }
      ⟨s1, dvBroadcast s1⟩
    else ⟨s, []⟩

/-- DV traces: states reachable from `dvInit` by handler calls whose
inputs satisfy the side condition `ok` (used to express the simulator's
documented preconditions). -/
inductive DVReach (ok : DVState → DVEvent → Prop) : DVState → Prop where
  | init (addr : String) (hb : Int) : DVReach ok (dvInit addr hb)
  | step {s : DVState} (e : DVEvent) : DVReach ok s → ok s e →
      DVReach ok (dvStep s e).state

/-! ## LS router (`src/LSrouter.py`) -/

/-- The dynamically-typed `seq` field of a parsed LSP.  The code never
validates its type: ints and floats flow into the `<=` comparison
unharmed, NaN compares false, and a string seq raises `TypeError` when
compared with a stored integer. -/
inductive PySeq : Type where
  | sInt (n : Int)
  | sFloat (q : Rat)
  | sNan
  | sStr (s : String)
deriving DecidableEq

/-- Python `seq <= stored_seq` on the dynamic seq values: `none` models
an uncaught `TypeError` (string against number); NaN compares false on
either side; strings compare lexicographically with strings. -/
def pySeqLe : PySeq → PySeq → Option Bool
  | .sInt a, .sInt b => some (decide (a ≤ b))
  | .sInt a, .sFloat y => some (decide ((a : Rat) ≤ y))
  | .sFloat x, .sInt b => some (decide (x ≤ (b : Rat)))
  | .sFloat x, .sFloat y => some (decide (x ≤ y))
  | .sNan, .sInt _ => some false
  | .sNan, .sFloat _ => some false
  | .sInt _, .sNan => some false
  | .sFloat _, .sNan => some false
  | .sNan, .sNan => some false
  | .sStr a, .sStr b => some (a == b || decide (a < b))
  | .sStr _, _ => none
  | _, .sStr _ => none

/-- Decoded content of an LS routing packet.  `malformed` covers every
way the `try` block of `LSrouter.handle_packet` can fail: a
`json.loads` error, a non-dict top level, or a missing
`origin`/`seq`/`links` key — all are caught and dropped. -/
inductive LSContent : Type where
  | malformed
  | parsed (origin : String) (seq : PySeq) (links : List (String × Int))
deriving DecidableEq

/-- State of an `LSrouter` instance. -/
structure LSState : Type where
  addr : String
  heartbeat : Int
  lastBroadcast : Int
  /-- `self.neighbours : nbr → (port, cost)` -/
  neighbours : List (String × Int × Int)
  /-- `self.lsdb : origin → (seq, links)`; seqs stay dynamic because an
  accepted float seq is stored as received. -/
  lsdb : List (String × PySeq × List (String × Int))
  /-- `self._seq` -/
  seq : Int
  /-- `self.forward : dest → port` -/
  forward : List (String × Int)
deriving DecidableEq

/-- `LSrouter.__init__` (which seeds the LSDB via `_update_own_lsp`). -/
def lsInit (addr : String) (heartbeat : Int) : LSState :=
  { addr := addr, heartbeat := heartbeat, lastBroadcast := 0,
    neighbours := [], lsdb := [(addr, (.sInt 0, []))], seq := 0, forward := [] }

/-- A packet emitted by an LS handler (`routing` carries the LSP content
of the packet; `_flood_received_lsp` re-sends the received payload, so
its sends carry the incoming origin/seq/links verbatim). -/
inductive LSSend : Type where
  | routing (port : Int) (dst : String) (origin : String) (seq : PySeq)
      (links : List (String × Int))
  | data (port : Int) (dst : String)
deriving DecidableEq

/-- `LSrouter._update_own_lsp`:
`self.lsdb[self.addr] = (self._seq, {n: cost for n, (_p, cost) in
self.neighbours.items()})`. -/
def lsUpdateOwnLsp (s : LSState) : LSState :=
  { s with lsdb := dset s.lsdb s.addr (PySeq.sInt s.seq, s.neighbours.map (fun nb => (nb.1, nb.2.2))) }

/-! ### `_recompute_forwarding`: Dijkstra over the LSDB

The Python `while pq:` loop is modelled with explicit fuel; the source
loop can in fact fail to terminate when a crafted LSP introduces a
negative-cost cycle, so no fuel amount is semantically forced, and a
generous polynomial bound is used (ample for any non-negative-cost
database, where the lazy-deletion heap performs at most one pop per
push and at most one push per edge). -/

/-- `graph[r].get(n)` over the adjacency structure (a `defaultdict`;
reads of absent outer keys yield the empty dict). -/
def gget (g : List (String × List (String × Int))) (r : String) : List (String × Int) :=
  (dget g r).getD []

/-- `graph[r][n] = c`. -/
def gput (g : List (String × List (String × Int))) (r n : String) (c : Int) :
    List (String × List (String × Int)) :=
  dset g r (dset (gget g r) n c)

/-- One edge of the graph-building loop: keep the cheapest cost seen so
far and mirror it (`graph[router][nbr] = cost; graph[nbr][router] =
cost`). -/
def edgeUpd (g : List (String × List (String × Int))) (r n : String) (c : Int) :
    List (String × List (String × Int)) :=
  match dget (gget g r) n with
  | none => gput (gput g r n c) n r c
  | some p => if c < p then gput (gput g r n c) n r c else g

/-- The undirected graph built from the LSDB. -/
def graphBuild (lsdb : List (String × PySeq × List (String × Int))) :
    List (String × List (String × Int)) :=
  lsdb.foldl (fun g rl => rl.2.2.foldl (fun g' nc => edgeUpd g' rl.1 nc.1 nc.2) g) []

/-- Strict lexicographic order on heap entries `(dist, node)`, the order
`heapq` pops tuples in. -/
def tupLtB (a b : Int × String) : Bool :=
  a.1 < b.1 || (a.1 == b.1 && decide (a.2 < b.2))

/-- Least entry of a nonempty multiset of heap entries. -/
def listMin (x : Int × String) (xs : List (Int × String)) : Int × String :=
  xs.foldl (fun m y => if tupLtB y m then y else m) x

/-- Remove one occurrence of an entry. -/
def eraseFirst : List (Int × String) → (Int × String) → List (Int × String)
  | [], _ => []
  | y :: ys, m => if y = m then ys else y :: eraseFirst ys m

/-- `heapq.heappop`: pop the least `(dist, node)` entry.  Equal entries
are identical tuples, so popping any occurrence of the minimum is
exact. -/
def popMin : List (Int × String) → Option ((Int × String) × List (Int × String))
  | [] => none
  | x :: xs =>
    let m := listMin x xs
    some (m, eraseFirst (x :: xs) m)

/-- The relaxation of all edges out of a popped node `u` at distance `d`
(`dist.get(v, 1 << 60)` is the Python default). -/
def relaxAll (g : List (String × List (String × Int))) (u : String) (d : Int)
    (st : List (String × Int) × List (String × String) × List (Int × String)) :
    List (String × Int) × List (String × String) × List (Int × String) :=
  (gget g u).foldl
    (fun st' vw =>
      let nd := d + vw.2
      if nd < (dget st'.1 vw.1).getD (2 ^ 60) then
        (dset st'.1 vw.1 nd, dset st'.2.1 vw.1 u, st'.2.2 ++ [(nd, vw.1)])
      else st')
    st

/-- The fueled `while pq:` loop (stale entries are skipped exactly as by
`if d != dist.get(u): continue`). -/
def dijkstraLoop (g : List (String × List (String × Int))) :
    Nat → List (String × Int) → List (String × String) → List (Int × String) →
    List (String × Int) × List (String × String)
  | 0, dist, prevM, _ => (dist, prevM)
  | fuel + 1, dist, prevM, pq =>
    match popMin pq with
    | none => (dist, prevM)
    | some (du, pq1) =>
      if dget dist du.2 ≠ some du.1 then dijkstraLoop g fuel dist prevM pq1
      else
        let st := relaxAll g du.2 du.1 (dist, prevM, pq1)
        dijkstraLoop g fuel st.1 st.2.1 st.2.2

/-- `hop = dest; while prev.get(hop) != self.addr: hop = prev[hop]`,
fueled.  The `none` results (fuel exhausted on a predecessor cycle, or a
missing predecessor, where the source would raise `KeyError`) are
unreachable for databases the handlers build; the destination is then
omitted. -/
def hopWalk (prevM : List (String × String)) (addr : String) :
    Nat → String → Option String
  | 0, _ => none
  | fuel + 1, hop =>
    match dget prevM hop with
    | some a => if a = addr then some hop else hopWalk prevM addr fuel a
    | none => none

/-- The forwarding-table extraction loop of `_recompute_forwarding`. -/
def lsExtract (dist : List (String × Int)) (prevM : List (String × String))
    (neighbours : List (String × Int × Int)) (addr : String) : List (String × Int) :=
  dist.foldl
    (fun fwd du =>
      if du.1 = addr then fwd
      else
        match hopWalk prevM addr (dist.length + 2) du.1 with
        | none => fwd
        | some hop =>
          match dget neighbours hop with
          | some pc => dset fwd du.1 pc.1
          | none => fwd)
    []

/-- `LSrouter._recompute_forwarding` as a function of the LSDB, the
neighbour table and the local address; it returns the new `forward`. -/
def lsRecompute (lsdb : List (String × PySeq × List (String × Int)))
    (neighbours : List (String × Int × Int)) (addr : String) : List (String × Int) :=
  let g := graphBuild lsdb
  let sz := g.foldl (fun a re => a + re.2.length) 0
  let dp := dijkstraLoop g ((sz + 2) * (g.length + 2)) [(addr, 0)] [] [(0, addr)]
  lsExtract dp.1 dp.2 neighbours addr

/-- `LSrouter._broadcast_lsp`: flood our own current LSP, skipping
`exclude_port` when given. -/
def lsBroadcast (s : LSState) (excludePort : Option Int) : List LSSend :=
  let own := (dget s.lsdb s.addr).getD (.sInt 0, [])
  s.neighbours.filterMap (fun nb =>
    if excludePort = some nb.2.1 then none
    else some (.routing nb.2.1 nb.1 s.addr own.1 own.2))

/-- `LSrouter._flood_received_lsp`: forward the received payload to all
neighbours except those on the inbound port. -/
def lsFlood (s : LSState) (excludePort : Int) (origin : String) (seq : PySeq)
    (links : List (String × Int)) : List LSSend :=
  s.neighbours.filterMap (fun nb =>
    if nb.2.1 = excludePort then none
    else some (.routing nb.2.1 nb.1 origin seq links))

/-- Events an `LSrouter` receives from the simulator. -/
inductive LSEvent : Type where
  | pktData (port : Int) (dst : String)
  | pktRouting (port : Int) (content : LSContent)
  | newLink (port : Int) (endpoint : String) (cost : Int)
  | removeLink (port : Int)
  | time (t : Int)
deriving DecidableEq

/-- Result of one LS handler call: final state, emitted packets, and
whether the handler escaped with an uncaught exception (`TypeError` from
the dynamic seq comparison). -/
structure LSRes : Type where
  state : LSState
  sends : List LSSend
  raised : Bool
deriving DecidableEq

/-- `stored_seq = self.lsdb.get(origin, (-1, {}))[0]`. -/
def lsStoredSeq (s : LSState) (origin : String) : PySeq :=
  match dget s.lsdb origin with
  | some ql => ql.1
  | none => .sInt (-1)

/-- `LSrouter.handle_packet`, routing branch, after the `try` block. -/
def lsHandleLsp (s : LSState) (port : Int) (origin : String) (seq : PySeq)
    (links : List (String × Int)) : LSRes :=
  match pySeqLe seq (lsStoredSeq s origin) with
  | none => ⟨s, [], true⟩
  | some true => ⟨s, [], false⟩
  | some false =>
    let lsdb1 := dset s.lsdb origin (seq, links)
    let s1 := { s with lsdb := lsdb1,
                       forward := lsRecompute lsdb1 s.neighbours s.addr }
    ⟨s1, lsFlood s1 port origin seq links, false⟩

/-- The four `LSrouter` event handlers as one step function. -/
def lsStep (s : LSState) (e : LSEvent) : LSRes :=
  match e with
  | .pktData _ dst =>
    match dget s.forward dst with
    | some p => ⟨s, [.data p dst], false⟩
    | none => ⟨s, [], false⟩
  | .pktRouting port content =>
    match content with
    | .malformed => ⟨s, [], false⟩
    | .parsed origin seq links => lsHandleLsp s port origin seq links
  | .newLink port endpoint cost =>
    let s1 := { s with neighbours := dset s.neighbours endpoint (port, cost),
                       seq := s.seq + 1 }
    let s2 := lsUpdateOwnLsp s1
    let s3 := { s2 with forward := lsRecompute s2.lsdb s2.neighbours s2.addr }
    ⟨s3, lsBroadcast s3 none, false⟩
  | .removeLink port =>
    match s.neighbours.find? (fun nb => nb.2.1 == port) with
    | none => ⟨s, [], false⟩
    | some nb =>
      let s1 := { s with neighbours := dpop s.neighbours nb.1, seq := s.seq + 1 }
      let s2 := lsUpdateOwnLsp s1
      let s3 := { s2 with forward := lsRecompute s2.lsdb s2.neighbours s2.addr }
      ⟨s3, lsBroadcast s3 none, false⟩
  | .time t =>
    if s.lastBroadcast + s.heartbeat ≤ t then
      let s1 := { s with lastBroadcast := t }
      ⟨s1, lsBroadcast s1 none, false⟩
    else ⟨s, [], false⟩

/-- Run a list of LS events from a state, keeping only the state (an
event that raises leaves the state the handler had built so far, which
for the only raising path is the unchanged entry state). -/
def lsRun (s : LSState) (es : List LSEvent) : LSState :=
  es.foldl (fun st e => (lsStep st e).state) s

/-- Side condition on LS traces used for the amended key-set invariant:
no delivered routing packet parses to an LSP whose origin is this
router's own address. -/
def lsEvOKB (addr : String) : LSEvent → Bool
  | .pktRouting _ (.parsed origin _ _) => origin != addr
  | _ => true

/-! ## Invariant predicates and trace side conditions -/

/-- Shape of a value that sanitization can store in `neighbor_vectors`:
an int in `[0, 16]` (kept small ints, or the `INF` replacement), a bool,
a finite float in `[0, 16)`, or NaN (which passes both comparisons). -/
def SanShape (v : PyVal) : Prop :=
  (∃ n, v = .vint n ∧ 0 ≤ n ∧ n ≤ 16) ∨ (∃ b, v = .vbool b) ∨
    (∃ q, v = .vfloat q ∧ 0 ≤ q ∧ q < 16) ∨ v = .vnan

/-- Trace side condition for the amended C4: every `handle_new_link`
carries a positive integer link cost (the data model's costs; the code
itself never validates them). -/
def dvOkCost : DVState → DVEvent → Prop := fun _ e =>
  match e with
  | .newLink _ _ cost => 1 ≤ cost
  | _ => True

/-- Trace side condition for C6: `handle_new_link` is only invoked on a
port with no live link, the documented precondition of `on_new_link`. -/
def dvOkPort : DVState → DVEvent → Prop := fun s e =>
  match e with
  | .newLink port _ _ => ∀ nb ∈ s.neighbors, nb.2.1 ≠ port
  | _ => True

/-- The DV state invariant carried through traces for C4. -/
structure DVInv (s : DVState) : Prop where
  self0 : dget s.dv s.addr = some 0
  costs : ∀ d c, (d, c) ∈ s.dv → 0 ≤ c ∧ c < 16 ∧ (c = 0 ↔ d = s.addr)
  fwdSelf : dget s.forward s.addr = none
  links1 : ∀ nb ∈ s.neighbors, 1 ≤ nb.2.2
  sanvecs : ∀ nvv ∈ s.neighborVectors, ∀ kv ∈ nvv.2, SanShape kv.2

/-- The DV state invariant carried through traces for C6: forwarding
ports always belong to a current neighbour, and at most one neighbour is
bound to any port. -/
structure DVPortInv (s : DVState) : Prop where
  fwdN : ∀ fe ∈ s.forward, ∃ nb ∈ s.neighbors, nb.2.1 = fe.2
  inj : ∀ nb1 ∈ s.neighbors, ∀ nb2 ∈ s.neighbors, nb1.2.1 = nb2.2.1 → nb1.1 = nb2.1

/-- The LS key-set invariant of C2, in the strong per-list form the
handlers actually maintain: the own LSDB entry exists and its link keys
are exactly the neighbour keys, in order. -/
def lsKeysEq (s : LSState) : Prop :=
  ∃ e, dget s.lsdb s.addr = some e ∧ e.2.map Prod.fst = s.neighbours.map Prod.fst

/-- The predicate of the claimed C5 sanitization rule, read off the
spec's words: a finite non-negative integer (here: an int value with
`0 ≤ c`). -/
def specFiniteNonnegInt (c : PyVal) : Prop := ∃ n, c = PyVal.vint n ∧ 0 ≤ n

/-- The values the source's sanitization keeps unchanged (everything
else is replaced by `INF`). -/
def sanKept (c : PyVal) : Prop :=
  c = .vnan ∨ (∃ n, c = .vint n ∧ 0 ≤ n ∧ n < 16) ∨ (∃ b, c = .vbool b) ∨
    (∃ q, c = .vfloat q ∧ 0 ≤ q ∧ q < 16)

/-! ## Concrete states used by witnesses -/

/-- A small DV state: A knows routes to B (port 1) and C (port 2). -/
def c7state : DVState :=
  { addr := "A", heartbeat := 100, lastBroadcast := 0,
    neighbors := [("B", (1, 1)), ("C", (2, 3))],
    neighborVectors := [("B", [("B", .vint 0)]), ("C", [("C", .vint 0)])],
    dv := [("A", 0), ("B", 1), ("C", 3)],
    forward := [("B", 1), ("C", 2)] }

/-- DV state reached from `dvInit "A" 100` by a new link to B and a
vector from B announcing C. -/
def c6state : DVState :=
  (dvStep (dvStep (dvInit "A" 100) (.newLink 1 "B" 1)).state
    (.pktRouting 1 "B" (some [("B", PyVal.vint 0), ("C", PyVal.vint 1)]))).state

/-- LS state holding an accepted LSP from B with sequence 3. -/
def c8state : LSState :=
  (lsStep (lsInit "A" 100) (.pktRouting 0 (.parsed "B" (.sInt 3) [("A", 1)]))).state

/-! ## Dictionary lemmas -/

theorem dget_dset_self {α : Type} (l : List (String × α)) (k : String) (v : α) :
    dget (dset l k v) k = some v := by
  induction l with
  | nil => simp [dset, dget]
  | cons hd t ih =>
    by_cases h : hd.1 = k
    · simp [dset, dget, h]
    · simp only [dset, dget]
      rw [if_neg h, dget, if_neg h]
      exact ih

theorem dget_dset_ne {α : Type} (l : List (String × α)) {k k' : String} (v : α)
    (h : k ≠ k') : dget (dset l k v) k' = dget l k' := by
  induction l with
  | nil => simp [dset, dget, h]
  | cons hd t ih =>
    by_cases h1 : hd.1 = k
    · simp only [dset, if_pos h1, dget]
      rw [if_neg h, if_neg (h1 ▸ h)]
    · simp only [dset, if_neg h1, dget]
      by_cases h2 : hd.1 = k'
      · rw [if_pos h2, if_pos h2]
      · rw [if_neg h2, if_neg h2]
        exact ih

theorem mem_dset {α : Type} {l : List (String × α)} {k : String} {v : α} {a : String × α}
    (h : a ∈ dset l k v) : a = (k, v) ∨ a ∈ l := by
  induction l with
  | nil => simpa [dset] using h
  | cons hd t ih =>
    by_cases h1 : hd.1 = k
    · simp only [dset, if_pos h1, List.mem_cons] at h
      rcases h with h | h
      · exact Or.inl h
      · exact Or.inr (List.mem_cons_of_mem _ h)
    · simp only [dset, if_neg h1, List.mem_cons] at h
      rcases h with h | h
      · exact Or.inr (h ▸ List.mem_cons_self _ _)
      · rcases ih h with h' | h'
        · exact Or.inl h'
        · exact Or.inr (List.mem_cons_of_mem _ h')

theorem dget_mem {α : Type} {l : List (String × α)} {k : String} {v : α}
    (h : dget l k = some v) : (k, v) ∈ l := by
  induction l with
  | nil => simp [dget] at h
  | cons hd t ih =>
    by_cases h1 : hd.1 = k
    · rw [dget, if_pos h1] at h
      obtain ⟨k0, v0⟩ := hd
      cases h1
      cases h
      exact List.mem_cons_self _ _
    · rw [dget, if_neg h1] at h
      exact List.mem_cons_of_mem _ (ih h)

theorem dget_map_val {α β : Type} (g : String → α → β) (l : List (String × α)) (k : String) :
    dget (l.map (fun kv => (kv.1, g kv.1 kv.2))) k = (dget l k).map (g k) := by
  induction l with
  | nil => simp [dget]
  | cons hd t ih =>
    by_cases h1 : hd.1 = k
    · subst h1
      simp [dget, List.map]
    · simp only [List.map, dget, if_neg h1]
      exact ih

theorem dget_filter_of_false {α : Type} {l : List (String × α)} {p : String × α → Bool}
    {k : String} (h : ∀ v, (k, v) ∈ l → p (k, v) = false) :
    dget (l.filter p) k = none := by
  induction l with
  | nil => simp [dget]
  | cons hd t ih =>
    by_cases hp : p hd = true
    · rw [List.filter_cons_of_pos hp, dget]
      have h1 : hd.1 ≠ k := by
        intro hk
        have := h hd.2 (by rw [← hk]; exact List.mem_cons_self _ _)
        rw [← hk] at this
        simp [this] at hp
      rw [if_neg h1]
      exact ih (fun v hv => h v (List.mem_cons_of_mem _ hv))
    · rw [List.filter_cons_of_neg hp]
      exact ih (fun v hv => h v (List.mem_cons_of_mem _ hv))

theorem dget_filter_keep {α : Type} {l : List (String × α)} {p : String × α → Bool}
    {k : String} {v : α} (h1 : dget l k = some v) (h2 : p (k, v) = true) :
    dget (l.filter p) k = some v := by
  induction l with
  | nil => simp [dget] at h1
  | cons hd t ih =>
    by_cases hk : hd.1 = k
    · rw [dget, if_pos hk] at h1
      obtain ⟨k0, v0⟩ := hd
      cases hk
      cases h1
      rw [List.filter_cons_of_pos h2, dget, if_pos rfl]
    · rw [dget, if_neg hk] at h1
      by_cases hp : p hd = true
      · rw [List.filter_cons_of_pos hp, dget, if_neg hk]
        exact ih h1
      · rw [List.filter_cons_of_neg hp]
        exact ih h1

theorem dget_filter_none {α : Type} {l : List (String × α)} {p : String × α → Bool}
    {k : String} (h : dget l k = none) : dget (l.filter p) k = none := by
  induction l with
  | nil => simp [dget]
  | cons hd t ih =>
    by_cases hk : hd.1 = k
    · rw [dget, if_pos hk] at h
      cases h
    · rw [dget, if_neg hk] at h
      by_cases hp : p hd = true
      · rw [List.filter_cons_of_pos hp, dget, if_neg hk]
        exact ih h
      · rw [List.filter_cons_of_neg hp]
        exact ih h

theorem dget_none_of_keys {α : Type} {l : List (String × α)} {k : String}
    (h : ∀ a ∈ l, a.1 ≠ k) : dget l k = none := by
  induction l with
  | nil => simp [dget]
  | cons hd t ih =>
    rw [dget, if_neg (h hd (List.mem_cons_self _ _))]
    exact ih (fun a ha => h a (List.mem_cons_of_mem _ ha))

/-! ## Claim C1 -/

/-- C1 (amended): for every LS routing packet whose content fails to
parse or is missing a field — everything the handler's `try` block
catches — `handle_packet` returns silently: no exception, no sends, and
`lsdb`, `forward` and `neighbours` (indeed the whole state) untouched.
(The original claim also promised this for packets carrying a
non-integer sequence number; the code never validates the sequence
type, see the counterexample.) -/
theorem ls_malformed_packet_silent_drop (s : LSState) (port : Int) :
    (lsStep s (.pktRouting port .malformed)).state = s ∧
    (lsStep s (.pktRouting port .malformed)).sends = [] ∧
    (lsStep s (.pktRouting port .malformed)).raised = false :=
  ⟨rfl, rfl, rfl⟩

/-- C1 counterexample: a syntactically valid routing packet carrying all
three fields but a *string* sequence number (`{"origin": "B", "seq":
"x", "links": {}}`) makes `handle_packet` raise an uncaught `TypeError`
(the `seq <= stored_seq` comparison sits outside the `try` block), so
the handler does not return silently as the claim states. -/
theorem ls_string_seq_raises :
    (lsStep (lsInit "A" 100) (.pktRouting 0 (.parsed "B" (.sStr "x") []))).raised = true ∧
    (lsStep (lsInit "A" 100) (.pktRouting 0 (.parsed "B" (.sStr "x") []))).state
      = lsInit "A" 100 := by
  constructor
  · rfl
  · rfl

/-! ## Claim C10 -/

/-- C10: `handle_time` only ever touches the last-broadcast timestamp:
for both routers and every time value, the neighbour table, forwarding
table and protocol state (DV: `dv` and `neighbor_vectors`; LS: `lsdb`
and the own sequence number) are exactly what they were before. -/
theorem handle_time_frame (sd : DVState) (sl : LSState) (t : Int) :
    ((dvStep sd (.time t)).state.neighbors = sd.neighbors ∧
     (dvStep sd (.time t)).state.neighborVectors = sd.neighborVectors ∧
     (dvStep sd (.time t)).state.dv = sd.dv ∧
     (dvStep sd (.time t)).state.forward = sd.forward) ∧
    ((lsStep sl (.time t)).state.neighbours = sl.neighbours ∧
     (lsStep sl (.time t)).state.forward = sl.forward ∧
     (lsStep sl (.time t)).state.lsdb = sl.lsdb ∧
     (lsStep sl (.time t)).state.seq = sl.seq) := by
  constructor
  · simp only [dvStep]
    split <;> simp
  · simp only [lsStep]
    split <;> simp

/-! ## Claim C9 -/

/-- C9: for both routers (with a positive heartbeat period) and every
time value `t`, calling the tick handler twice in succession broadcasts
at most once: the first call broadcasts exactly when
`t ≥ last_broadcast + heartbeat`, in which case it sets
`last_broadcast = t`, so the immediate repeat with the same `t` changes
nothing and sends nothing; when the first call does not fire it changes
nothing and sends nothing either. -/
theorem handle_time_fires_once (sd : DVState) (sl : LSState) (t : Int)
    (hd : 0 < sd.heartbeat) (hl : 0 < sl.heartbeat) :
    ((sd.lastBroadcast + sd.heartbeat ≤ t →
        (dvStep sd (.time t)).state.lastBroadcast = t ∧
        (dvStep sd (.time t)).sends = dvBroadcast { sd with lastBroadcast := t } ∧
        (dvStep (dvStep sd (.time t)).state (.time t)).state = (dvStep sd (.time t)).state ∧
        (dvStep (dvStep sd (.time t)).state (.time t)).sends = []) ∧
     (¬ sd.lastBroadcast + sd.heartbeat ≤ t →
        (dvStep sd (.time t)).state = sd ∧ (dvStep sd (.time t)).sends = [])) ∧
    ((sl.lastBroadcast + sl.heartbeat ≤ t →
        (lsStep sl (.time t)).state.lastBroadcast = t ∧
        (lsStep sl (.time t)).sends = lsBroadcast { sl with lastBroadcast := t } none ∧
        (lsStep (lsStep sl (.time t)).state (.time t)).state = (lsStep sl (.time t)).state ∧
        (lsStep (lsStep sl (.time t)).state (.time t)).sends = []) ∧
     (¬ sl.lastBroadcast + sl.heartbeat ≤ t →
        (lsStep sl (.time t)).state = sl ∧ (lsStep sl (.time t)).sends = [])) := by
  constructor
  · constructor
    · intro hfire
      have h1 : dvStep sd (.time t)
          = ⟨{ sd with lastBroadcast := t }, dvBroadcast { sd with lastBroadcast := t }⟩ := by
        simp only [dvStep]
        rw [if_pos hfire]
      rw [h1]
      refine ⟨rfl, rfl, ?_, ?_⟩ <;>
      · simp only [dvStep]
        rw [if_neg (show ¬ t + sd.heartbeat ≤ t by omega)]
    · intro hmiss
      have h1 : dvStep sd (.time t) = ⟨sd, []⟩ := by
        simp only [dvStep]
        rw [if_neg hmiss]
      rw [h1]
      exact ⟨rfl, rfl⟩
  · constructor
    · intro hfire
      have h1 : lsStep sl (.time t)
          = ⟨{ sl with lastBroadcast := t }, lsBroadcast { sl with lastBroadcast := t } none,
             false⟩ := by
        simp only [lsStep]
        rw [if_pos hfire]
      rw [h1]
      refine ⟨rfl, rfl, ?_, ?_⟩ <;>
      · simp only [lsStep]
        rw [if_neg (show ¬ t + sl.heartbeat ≤ t by omega)]
    · intro hmiss
      have h1 : lsStep sl (.time t) = ⟨sl, [], false⟩ := by
        simp only [lsStep]
        rw [if_neg hmiss]
      rw [h1]
      exact ⟨rfl, rfl⟩

/-- Witness for C9 at a concrete state: the heartbeat fires at `t = 7`
for period 5, and the immediate second call emits nothing. -/
theorem handle_time_fires_once_witness :
    (0 : Int) + 5 ≤ 7 ∧
    (dvStep (dvStep (dvInit "A" 5) (.time 7)).state (.time 7)).sends = [] ∧
    (lsStep (lsStep (lsInit "A" 5) (.time 7)).state (.time 7)).sends = [] :=
  ⟨by decide,
   (((handle_time_fires_once (dvInit "A" 5) (lsInit "A" 5) 7 (by decide)
      (by decide)).1.1 (by decide)).2.2.2),
   (((handle_time_fires_once (dvInit "A" 5) (lsInit "A" 5) 7 (by decide)
      (by decide)).2.1 (by decide)).2.2.2)⟩

/-! ## Claim C7 -/

/-- C7: the vector `_send_vector_to_neighbor` advertises to neighbour
`m` over port `p` carries, for every destination `d` of `own_dv`, cost
`INF` when `forward[d] = p` and `d ≠ m` (poisoned reverse) and the
stored cost otherwise; and the router's own entry is advertised with
cost 0.  The two hypotheses are facts of every state the DV handlers
produce: `dv[self] = 0` and `self ∉ forward`. -/
theorem dv_poisoned_reverse_advert (s : DVState) (m : String) (p : Int)
    (h0 : dget s.dv s.addr = some 0) (h1 : dget s.forward s.addr = none) :
    (∀ d c, dget s.dv d = some c →
       dget (dvAdvertVec s m p) d =
         some (if dget s.forward d = some p ∧ d ≠ m then (16 : Rat) else c)) ∧
    dget (dvAdvertVec s m p) s.addr = some 0 := by
  have key : ∀ d, dget (dvAdvertVec s m p) d
      = (dget s.dv d).map
          (fun c => if dget s.forward d = some p ∧ d ≠ m then (16 : Rat) else c) :=
    fun d =>
      dget_map_val (fun k c => if dget s.forward k = some p ∧ k ≠ m then (16 : Rat) else c)
        s.dv d
  constructor
  · intro d c hc
    rw [key d, hc, Option.map_some']
  · rw [key s.addr, h0, Option.map_some']
    simp [h1]

/-- Witness for C7: in `c7state`, destination C (routed via port 2) is
poisoned in the vector sent to B on port 2, and A's own entry is 0. -/
theorem dv_poisoned_reverse_advert_witness :
    dget (dvAdvertVec c7state "B" 2) "C" = some 16 ∧
    dget (dvAdvertVec c7state "B" 2) "A" = some 0 := by
  have h := dv_poisoned_reverse_advert c7state "B" 2 (by decide) (by decide)
  refine ⟨?_, h.2⟩
  rw [h.1 "C" 3 (by decide)]
  decide

/-! ## Claim C8 -/

/-- C8: delivering an LSP identical (origin, sequence, links) to one
already accepted into the LSDB leaves `lsdb` and `forward` unchanged and
emits nothing — the `seq <= stored_seq` test drops it before any
mutation or flood. -/
theorem ls_duplicate_lsp_dropped (s : LSState) (port : Int) (o : String) (k : Int)
    (L : List (String × Int)) (h : dget s.lsdb o = some (.sInt k, L)) :
    (lsStep s (.pktRouting port (.parsed o (.sInt k) L))).state.lsdb = s.lsdb ∧
    (lsStep s (.pktRouting port (.parsed o (.sInt k) L))).state.forward = s.forward ∧
    (lsStep s (.pktRouting port (.parsed o (.sInt k) L))).sends = [] := by
  have h1 : lsStep s (.pktRouting port (.parsed o (.sInt k) L)) = ⟨s, [], false⟩ := by
    simp only [lsStep, lsHandleLsp, lsStoredSeq, h]
    rw [show pySeqLe (.sInt k) (.sInt k) = some true by simp [pySeqLe]]
  rw [h1]
  exact ⟨rfl, rfl, rfl⟩

/-- Witness for C8: `c8state` holds B's seq-3 LSP; redelivering it on
any port changes nothing and sends nothing. -/
theorem ls_duplicate_lsp_dropped_witness :
    dget c8state.lsdb "B" = some (.sInt 3, [("A", 1)]) ∧
    (lsStep c8state (.pktRouting 5 (.parsed "B" (.sInt 3) [("A", 1)]))).sends = [] :=
  ⟨by decide, (ls_duplicate_lsp_dropped c8state 5 "B" 3 [("A", 1)] (by decide)).2.2⟩

/-! ## Claim C5 -/

unseal Rat.add in
/-- C5 counterexample: the non-integer float `3.5` is *not* a finite
non-negative integer, yet sanitization keeps it unchanged instead of
replacing it with `INF` (Python's `isinstance(c, (int, float))` admits
floats), and the DV handler stores it verbatim in `neighbor_vectors`. -/
theorem dv_sanitize_float_cex :
    sanitizeVal (.vfloat (mkRat 7 2)) = .vfloat (mkRat 7 2) ∧
    ¬ specFiniteNonnegInt (.vfloat (mkRat 7 2)) ∧
    PyVal.vfloat (mkRat 7 2) ≠ .vint INF ∧
    dget ((dget (dvStep (dvStep (dvInit "A" 100) (.newLink 1 "B" 1)).state
        (.pktRouting 1 "B"
          (some [("B", PyVal.vint 0), ("C", PyVal.vfloat (mkRat 7 2))]))).state.neighborVectors
        "B").getD []) "C" = some (.vfloat (mkRat 7 2)) := by
  refine ⟨by decide, ?_, by decide, by decide⟩
  rintro ⟨n, hn, -⟩
  cases hn

/-- C5 (amended): the sanitized value stored for an entry `(d, c)` of an
inbound vector is `c` itself whenever `c` is NaN, an int in `[0, 16)`, a
bool, or a finite float in `[0, 16)`; every other value — a non-numeric
value, a negative, an out-of-range number, or an infinity — is replaced
by `INF`.  (Unlike the original claim, kept values need not be
integers, and NaN is kept because it fails both comparisons.) -/
theorem dv_sanitize_rule (c : PyVal) :
    (sanKept c → sanitizeVal c = c) ∧ (¬ sanKept c → sanitizeVal c = .vint INF) := by
  constructor
  · intro h
    rcases h with h | ⟨n, rfl, h0, h16⟩ | ⟨b, rfl⟩ | ⟨q, rfl, h0, h16⟩
    · subst h; rfl
    · have hA : pyLtZero (.vint n) = false := by
        simp only [pyLtZero, pyToQ, decide_eq_false_iff_not, not_lt]
        exact_mod_cast h0
      have hB : pyGeInf (.vint n) = false := by
        simp only [pyGeInf, pyToQ, decide_eq_false_iff_not, not_le]
        exact_mod_cast h16
      simp [sanitizeVal, pyIsNum, hA, hB]
    · cases b <;> rfl
    · have hA : pyLtZero (.vfloat q) = false := by
        simp only [pyLtZero, pyToQ, decide_eq_false_iff_not, not_lt]
        exact h0
      have hB : pyGeInf (.vfloat q) = false := by
        simp only [pyGeInf, pyToQ, decide_eq_false_iff_not, not_le]
        exact h16
      simp [sanitizeVal, pyIsNum, hA, hB]
  · intro h
    match c with
    | .vnan => exact absurd (Or.inl rfl) h
    | .vbool b => exact absurd (Or.inr (Or.inr (Or.inl ⟨b, rfl⟩))) h
    | .vint n =>
      have hn : n < 0 ∨ 16 ≤ n := by
        by_contra hc
        push_neg at hc
        exact h (Or.inr (Or.inl ⟨n, rfl, hc.1, hc.2⟩))
      rcases hn with hn | hn
      · have hA : pyLtZero (.vint n) = true := by
          simp only [pyLtZero, pyToQ, decide_eq_true_eq]
          exact_mod_cast hn
        simp [sanitizeVal, hA, INF]
      · have hB : pyGeInf (.vint n) = true := by
          simp only [pyGeInf, pyToQ, decide_eq_true_eq]
          exact_mod_cast hn
        simp [sanitizeVal, hB, INF]
    | .vfloat q =>
      have hq : q < 0 ∨ 16 ≤ q := by
        by_contra hc
        push_neg at hc
        exact h (Or.inr (Or.inr (Or.inr ⟨q, rfl, hc.1, hc.2⟩)))
      rcases hq with hq | hq
      · have hA : pyLtZero (.vfloat q) = true := by
          simp only [pyLtZero, pyToQ, decide_eq_true_eq]
          exact hq
        simp [sanitizeVal, hA, INF]
      · have hB : pyGeInf (.vfloat q) = true := by
          simp only [pyGeInf, pyToQ, decide_eq_true_eq]
          exact hq
        simp [sanitizeVal, hB, INF]
    | .vinf => rfl
    | .vninf => rfl
    | .vstr a => rfl
    | .vnull => rfl
    | .vlist => rfl
    | .vdict => rfl

/-- Witness for C5: a kept bool and a replaced negative int. -/
theorem dv_sanitize_rule_witness :
    sanitizeVal (.vbool true) = .vbool true ∧ sanitizeVal (.vint (-3)) = .vint INF :=
  ⟨(dv_sanitize_rule (.vbool true)).1 (Or.inr (Or.inr (Or.inl ⟨true, rfl⟩))),
   (dv_sanitize_rule (.vint (-3))).2 (by
      rintro (h | ⟨n, hn, h0, -⟩ | ⟨b, hb⟩ | ⟨q, hq, -, -⟩)
      · cases h
      · cases hn; omega
      · cases hb
      · cases hq)⟩

/-! ## Claim C3 -/

/-- C3: on a routing packet parsing to `(o, s, L)` with a non-negative
integer sequence (the wire format of an LSP): if `o` is absent from the
LSDB or `s` is strictly greater than the stored sequence, the LSP is
accepted — `lsdb[o] = (s, L)`, the forwarding table is recomputed from
the updated LSDB, and the received payload is sent verbatim to every
current neighbour except those on the inbound port; otherwise the packet
is dropped: state unchanged, nothing sent.  In particular an LSP from an
unknown origin is accepted (its stored-side default is `-1`). -/
theorem ls_accept_or_drop (s : LSState) (port : Int) (o : String) (n : Int)
    (L : List (String × Int)) (hn : 0 ≤ n)
    (hstored : ∀ q L0, dget s.lsdb o = some (q, L0) → ∃ k, q = PySeq.sInt k) :
    ((dget s.lsdb o = none ∨ (∀ k L0, dget s.lsdb o = some (.sInt k, L0) → k < n)) →
       dget (lsStep s (.pktRouting port (.parsed o (.sInt n) L))).state.lsdb o
           = some (.sInt n, L) ∧
       (lsStep s (.pktRouting port (.parsed o (.sInt n) L))).state.forward
           = lsRecompute (dset s.lsdb o (.sInt n, L)) s.neighbours s.addr ∧
       (lsStep s (.pktRouting port (.parsed o (.sInt n) L))).state.neighbours
           = s.neighbours ∧
       (lsStep s (.pktRouting port (.parsed o (.sInt n) L))).sends
           = s.neighbours.filterMap (fun nb =>
               if nb.2.1 = port then none
               else some (.routing nb.2.1 nb.1 o (.sInt n) L))) ∧
    ((∃ k L0, dget s.lsdb o = some (.sInt k, L0) ∧ n ≤ k) →
       (lsStep s (.pktRouting port (.parsed o (.sInt n) L))).state = s ∧
       (lsStep s (.pktRouting port (.parsed o (.sInt n) L))).sends = []) := by
  cases hdb : dget s.lsdb o with
  | none =>
    have hcmp : pySeqLe (.sInt n) (.sInt (-1)) = some false := by
      simp only [pySeqLe, Option.some.injEq, decide_eq_false_iff_not]
      omega
    constructor
    · intro _
      simp only [lsStep, lsHandleLsp, lsStoredSeq, hdb, hcmp]
      refine ⟨dget_dset_self _ _ _, ?_, ?_, ?_⟩ <;> first | rfl | trivial
    · rintro ⟨k, L0, hk, -⟩
      exact Option.noConfusion hk
  | some ql =>
    obtain ⟨k, hk⟩ := hstored ql.1 ql.2 (hdb.trans rfl)
    by_cases hle : n ≤ k
    · have hcmp : pySeqLe (.sInt n) (.sInt k) = some true := by
        simp only [pySeqLe, Option.some.injEq, decide_eq_true_eq]
        exact hle
      constructor
      · intro hacc
        rcases hacc with hacc | hacc
        · exact Option.noConfusion hacc
        · have h3 : k < n := by
            refine hacc k ql.2 ?_
            rw [← hk]
          omega
      · intro _
        simp only [lsStep, lsHandleLsp, lsStoredSeq, hdb, hk, hcmp]
        exact ⟨by trivial, by trivial⟩
    · have hcmp : pySeqLe (.sInt n) (.sInt k) = some false := by
        simp only [pySeqLe, Option.some.injEq, decide_eq_false_iff_not]
        exact hle
      constructor
      · intro _
        simp only [lsStep, lsHandleLsp, lsStoredSeq, hdb, hk, hcmp]
        refine ⟨dget_dset_self _ _ _, ?_, ?_, ?_⟩ <;> first | rfl | trivial
      · rintro ⟨k', L0', hk', hle'⟩
        have h2 : ql = (PySeq.sInt k', L0') := Option.some.inj hk'
        have h3 : PySeq.sInt k' = PySeq.sInt k := by
          rw [h2] at hk
          exact hk
        injection h3 with h4
        omega

/-- Witness for C3: an LSP from the unknown origin B is accepted by a
fresh router and enters the LSDB. -/
theorem ls_accept_or_drop_witness :
    (0 : Int) ≤ 0 ∧
    dget (lsStep (lsInit "A" 100)
        (.pktRouting 0 (.parsed "B" (.sInt 0) [("A", 1)]))).state.lsdb "B"
      = some (.sInt 0, [("A", 1)]) :=
  ⟨by decide,
   ((ls_accept_or_drop (lsInit "A" 100) 0 "B" 0 [("A", 1)] (by decide)
      (by
        intro q L0 h
        rw [show dget (lsInit "A" 100).lsdb "B" = none by decide] at h
        cases h)).1 (Or.inl (by decide))).1⟩

/-! ## Claim C2 -/

theorem lsStep_addr (s : LSState) (e : LSEvent) : (lsStep s e).state.addr = s.addr := by
  cases e with
  | pktData port dst =>
    simp only [lsStep]
    cases dget s.forward dst <;> rfl
  | pktRouting port content =>
    cases content with
    | malformed => rfl
    | parsed o q L =>
      simp only [lsStep, lsHandleLsp]
      cases pySeqLe q (lsStoredSeq s o) with
      | none => rfl
      | some b => cases b <;> rfl
  | newLink port ep c => rfl
  | removeLink port =>
    simp only [lsStep]
    cases s.neighbours.find? (fun nb => nb.2.1 == port) <;> rfl
  | time t =>
    simp only [lsStep]
    split <;> rfl

theorem lsKeysEq_step {s : LSState} (h : lsKeysEq s) (e : LSEvent)
    (hok : lsEvOKB s.addr e = true) : lsKeysEq (lsStep s e).state := by
  cases e with
  | pktData port dst =>
    simp only [lsStep]
    cases dget s.forward dst <;> exact h
  | pktRouting port content =>
    cases content with
    | malformed => exact h
    | parsed o q L =>
      have ho : ¬ o = s.addr := by simpa [lsEvOKB] using hok
      simp only [lsStep, lsHandleLsp]
      cases pySeqLe q (lsStoredSeq s o) with
      | none => exact h
      | some b =>
        cases b
        · obtain ⟨e0, he0, hkeys⟩ := h
          exact ⟨e0, by rw [dget_dset_ne _ _ ho]; exact he0, hkeys⟩
        · exact h
  | newLink port ep c =>
    refine ⟨_, dget_dset_self _ _ _, ?_⟩
    simp only [List.map_map]
    rfl
  | removeLink port =>
    simp only [lsStep]
    cases s.neighbours.find? (fun nb => nb.2.1 == port) with
    | none => exact h
    | some nb =>
      refine ⟨_, dget_dset_self _ _ _, ?_⟩
      simp only [List.map_map]
      rfl
  | time t =>
    simp only [lsStep]
    split <;> exact h

theorem lsKeysEq_run {s : LSState} (h : lsKeysEq s) (es : List LSEvent)
    (hok : ∀ e ∈ es, lsEvOKB s.addr e = true) : lsKeysEq (lsRun s es) := by
  induction es generalizing s with
  | nil => exact h
  | cons e t ih =>
    have h1 := lsKeysEq_step h e (hok e (List.mem_cons_self _ _))
    have haddr := lsStep_addr s e
    exact ih h1 (fun e' he' => by rw [haddr]; exact hok e' (List.mem_cons_of_mem _ he'))

/-- C2 (amended): after any sequence of events in which no delivered
routing packet parses to an LSP whose origin is the router's own
address, the key set of `lsdb[self].links` equals the key set of the
neighbour table.  (Each handler re-derives the own LSP from the
neighbour table; only a spoofed own-origin LSP can break the match, see
the counterexample.) -/
theorem ls_own_links_match_neighbours (addr : String) (hb : Int) (es : List LSEvent)
    (hok : ∀ e ∈ es, lsEvOKB addr e = true) (k : String) :
    (∃ e, dget (lsRun (lsInit addr hb) es).lsdb (lsRun (lsInit addr hb) es).addr = some e ∧
       k ∈ e.2.map Prod.fst) ↔
    k ∈ (lsRun (lsInit addr hb) es).neighbours.map Prod.fst := by
  have h0 : lsKeysEq (lsInit addr hb) :=
    ⟨(PySeq.sInt 0, []),
     dget_dset_self [] addr ((PySeq.sInt 0, []) : PySeq × List (String × Int)), rfl⟩
  obtain ⟨e0, he0, hkeys⟩ := lsKeysEq_run h0 es hok
  constructor
  · rintro ⟨e1, he1, hk⟩
    rw [he0] at he1
    cases he1
    rw [← hkeys]
    exact hk
  · intro hk
    exact ⟨e0, he0, by rw [hkeys]; exact hk⟩

/-- C2 counterexample: the code never guards against a routing packet
whose origin is the router's own address; a spoofed LSP
`(origin = "A", seq = 1, links = {"B": 1})` delivered to the fresh
router A is accepted (1 > 0) and overwrites `lsdb["A"]`, so
`lsdb[self].links` has key set `{"B"}` while the neighbour table is
empty. -/
theorem ls_spoofed_origin_breaks_invariant :
    (∃ e, dget (lsStep (lsInit "A" 100)
        (.pktRouting 0 (.parsed "A" (.sInt 1) [("B", 1)]))).state.lsdb "A" = some e ∧
       "B" ∈ e.2.map Prod.fst) ∧
    "B" ∉ (lsStep (lsInit "A" 100)
        (.pktRouting 0 (.parsed "A" (.sInt 1) [("B", 1)]))).state.neighbours.map Prod.fst := by
  constructor
  · exact ⟨(.sInt 1, [("B", 1)]), by decide, by decide⟩
  · decide

/-- Witness for C2 at a concrete two-event trace. -/
theorem ls_own_links_match_neighbours_witness :
    (∀ e ∈ [LSEvent.newLink 1 "B" 1,
            LSEvent.pktRouting 2 (.parsed "C" (.sInt 0) [("A", 1)])], lsEvOKB "A" e = true) ∧
    ((∃ e, dget (lsRun (lsInit "A" 100)
          [LSEvent.newLink 1 "B" 1,
           LSEvent.pktRouting 2 (.parsed "C" (.sInt 0) [("A", 1)])]).lsdb
        (lsRun (lsInit "A" 100)
          [LSEvent.newLink 1 "B" 1,
           LSEvent.pktRouting 2 (.parsed "C" (.sInt 0) [("A", 1)])]).addr = some e ∧
       "B" ∈ e.2.map Prod.fst) ↔
     "B" ∈ (lsRun (lsInit "A" 100)
          [LSEvent.newLink 1 "B" 1,
           LSEvent.pktRouting 2 (.parsed "C" (.sInt 0) [("A", 1)])]).neighbours.map Prod.fst) :=
  ⟨by decide,
   ls_own_links_match_neighbours "A" 100
     [LSEvent.newLink 1 "B" 1,
      LSEvent.pktRouting 2 (.parsed "C" (.sInt 0) [("A", 1)])] (by decide) "B"⟩

/-! ## DV recompute lemmas (shared by C4 and C6) -/

theorem sanShape_sanitizeVal (c : PyVal) : SanShape (sanitizeVal c) := by
  by_cases hg : (!pyIsNum c || pyLtZero c || pyGeInf c) = true
  · rw [sanitizeVal, if_pos hg]
    exact Or.inl ⟨16, rfl, by omega, by omega⟩
  · rw [sanitizeVal, if_neg hg]
    simp only [Bool.or_eq_true, Bool.not_eq_true', not_or, Bool.not_eq_true] at hg
    obtain ⟨⟨h1, h2⟩, h3⟩ := hg
    match c with
    | .vint n =>
      simp only [pyLtZero, pyToQ, decide_eq_false_iff_not, not_lt] at h2
      simp only [pyGeInf, pyToQ, decide_eq_false_iff_not, not_le] at h3
      refine Or.inl ⟨n, rfl, by exact_mod_cast h2, ?_⟩
      have : n < 16 := by exact_mod_cast h3
      omega
    | .vbool b => exact Or.inr (Or.inl ⟨b, rfl⟩)
    | .vfloat q =>
      simp only [pyLtZero, pyToQ, decide_eq_false_iff_not, not_lt] at h2
      simp only [pyGeInf, pyToQ, decide_eq_false_iff_not, not_le] at h3
      exact Or.inr (Or.inr (Or.inl ⟨q, rfl, h2, h3⟩))
    | .vnan => exact Or.inr (Or.inr (Or.inr rfl))
    | .vinf => simp [pyGeInf] at h3
    | .vninf => simp [pyLtZero] at h2
    | .vstr a => simp [pyIsNum] at h1
    | .vnull => simp [pyIsNum] at h1
    | .vlist => simp [pyIsNum] at h1
    | .vdict => simp [pyIsNum] at h1

theorem candCost_ge_one {link : Int} (h1 : 1 ≤ link) {vec : List (String × PyVal)}
    (hv : ∀ kv ∈ vec, SanShape kv.2) (dest : String) {c : Rat}
    (hc : candCost link vec dest = some c) : 1 ≤ c := by
  have hlr : (1 : Rat) ≤ (link : Rat) := by exact_mod_cast h1
  unfold candCost at hc
  cases hd : dget vec dest with
  | none =>
    rw [hd] at hc
    cases hc
    linarith
  | some v =>
    rw [hd] at hc
    have hs : SanShape v := hv (dest, v) (dget_mem hd)
    rcases hs with ⟨n, rfl, hn0, hn16⟩ | ⟨b, rfl⟩ | ⟨q, rfl, hq0, hq16⟩ | rfl
    · cases hc
      have : (0 : Rat) ≤ (n : Rat) := by exact_mod_cast hn0
      linarith
    · cases hc
      cases b <;> simp only [Bool.cond_false, Bool.cond_true] <;> linarith
    · cases hc
      linarith
    · cases hc

theorem bestStep_cases (nvs : List (String × List (String × PyVal))) (dest : String)
    (acc : Rat × Option Int) (nb : String × Int × Int) :
    bestStep nvs dest acc nb = acc ∨
    ∃ c, candCost nb.2.2 ((dget nvs nb.1).getD []) dest = some c ∧ c < acc.1 ∧
         bestStep nvs dest acc nb = (c, some nb.2.1) := by
  have hd : bestStep nvs dest acc nb =
      match candCost nb.2.2 ((dget nvs nb.1).getD []) dest with
      | none => acc
      | some c => if c < acc.1 then (c, some nb.2.1) else acc := rfl
  rw [hd]
  cases hcc : candCost nb.2.2 ((dget nvs nb.1).getD []) dest with
  | none => exact Or.inl rfl
  | some c =>
    by_cases hlt : c < acc.1
    · exact Or.inr ⟨c, rfl, hlt, if_pos hlt⟩
    · exact Or.inl (if_neg hlt)

theorem bestFold_bounds (nvs : List (String × List (String × PyVal))) (dest : String)
    (hv : ∀ nvv ∈ nvs, ∀ kv ∈ nvv.2, SanShape kv.2) :
    ∀ (l : List (String × Int × Int)), (∀ nb ∈ l, 1 ≤ nb.2.2) →
      ∀ (acc : Rat × Option Int), 1 ≤ acc.1 → acc.1 ≤ 16 →
      1 ≤ (l.foldl (bestStep nvs dest) acc).1 ∧ (l.foldl (bestStep nvs dest) acc).1 ≤ 16 := by
  intro l
  induction l with
  | nil => exact fun _ acc ha hb => ⟨ha, hb⟩
  | cons nb t ih =>
    intro hall acc ha hb
    rw [List.foldl_cons]
    rcases bestStep_cases nvs dest acc nb with he | ⟨c, hcc, hlt, he⟩
    · rw [he]
      exact ih (fun x hx => hall x (List.mem_cons_of_mem _ hx)) acc ha hb
    · rw [he]
      have hvec : ∀ kv ∈ (dget nvs nb.1).getD [], SanShape kv.2 := by
        cases hnv : dget nvs nb.1 with
        | none => intro kv hkv; cases hkv
        | some v0 => exact fun kv hkv => hv (nb.1, v0) (dget_mem hnv) kv hkv
      refine ih (fun x hx => hall x (List.mem_cons_of_mem _ hx)) (c, some nb.2.1) ?_ ?_
      · exact candCost_ge_one (hall nb (List.mem_cons_self _ _)) hvec dest hcc
      · exact le_trans (le_of_lt hlt) hb

theorem bestFold_ports (nvs : List (String × List (String × PyVal))) (dest : String)
    (P : Int → Prop) :
    ∀ (l : List (String × Int × Int)) (acc : Rat × Option Int),
      (∀ nb ∈ l, P nb.2.1) → (∀ p, acc.2 = some p → P p) →
      ∀ p, (l.foldl (bestStep nvs dest) acc).2 = some p → P p := by
  intro l
  induction l with
  | nil => exact fun acc _ hp => hp
  | cons nb t ih =>
    intro acc hall hp
    rw [List.foldl_cons]
    rcases bestStep_cases nvs dest acc nb with he | ⟨c, hcc, hlt, he⟩
    · rw [he]
      exact ih acc (fun x hx => hall x (List.mem_cons_of_mem _ hx)) hp
    · rw [he]
      refine ih (c, some nb.2.1) (fun x hx => hall x (List.mem_cons_of_mem _ hx)) ?_
      intro p hpp
      cases hpp
      exact hall nb (List.mem_cons_self _ _)

theorem bestFor_bounds (s : DVState) (dest : String)
    (hl : ∀ nb ∈ s.neighbors, 1 ≤ nb.2.2)
    (hv : ∀ nvv ∈ s.neighborVectors, ∀ kv ∈ nvv.2, SanShape kv.2) :
    1 ≤ (bestFor s dest).1 ∧ (bestFor s dest).1 ≤ 16 :=
  bestFold_bounds s.neighborVectors dest hv s.neighbors hl (16, none) (by norm_num)
    (le_refl _)

theorem bestFor_ports (s : DVState) (dest : String) :
    ∀ p, (bestFor s dest).2 = some p → ∃ nb ∈ s.neighbors, nb.2.1 = p :=
  bestFold_ports s.neighborVectors dest (fun p => ∃ nb ∈ s.neighbors, nb.2.1 = p)
    s.neighbors (16, none) (fun nb hnb => ⟨nb, hnb, rfl⟩)
    (fun _ hp => Option.noConfusion hp)

theorem dvRow_some {s : DVState} {dest : String} {r : String × Rat × Int}
    (h : dvRow s dest = some r) :
    ¬ dest = s.addr ∧ r.1 = dest ∧ r.2.1 = (bestFor s dest).1 ∧
    (bestFor s dest).1 < 16 ∧ (bestFor s dest).2 = some r.2.2 := by
  simp only [dvRow] at h
  by_cases hda : dest = s.addr
  · rw [if_pos hda] at h
    cases h
  · rw [if_neg hda] at h
    by_cases hlt : (bestFor s dest).1 < 16
    · rw [if_pos hlt] at h
      cases hp : (bestFor s dest).2 with
      | none => rw [hp] at h; cases h
      | some q =>
        rw [hp] at h
        cases h
        exact ⟨hda, rfl, rfl, hlt, rfl⟩
    · rw [if_neg hlt] at h
      cases h

theorem dvCompute_dv_mem (s : DVState)
    (hl : ∀ nb ∈ s.neighbors, 1 ≤ nb.2.2)
    (hv : ∀ nvv ∈ s.neighborVectors, ∀ kv ∈ nvv.2, SanShape kv.2) :
    ∀ d c, (d, c) ∈ (dvCompute s).1 →
      (d = s.addr ∧ c = 0) ∨ (¬ d = s.addr ∧ 1 ≤ c ∧ c < 16) := by
  intro d c hmem
  simp only [dvCompute, List.mem_cons] at hmem
  rcases hmem with h | h
  · left
    exact ⟨congrArg Prod.fst h, congrArg Prod.snd h⟩
  · right
    rw [List.mem_map] at h
    obtain ⟨r, hr, hre⟩ := h
    rw [List.mem_filterMap] at hr
    obtain ⟨dest, -, hrow⟩ := hr
    obtain ⟨hda, hr1, hr2, hlt, -⟩ := dvRow_some hrow
    have hb := bestFor_bounds s dest hl hv
    have hd1 : r.1 = d := congrArg Prod.fst hre
    have hc1 : r.2.1 = c := congrArg Prod.snd hre
    refine ⟨?_, ?_, ?_⟩
    · rw [← hd1, hr1]
      exact hda
    · rw [← hc1, hr2]
      exact hb.1
    · rw [← hc1, hr2]
      exact hlt

theorem dvCompute_fwd_mem (s : DVState) :
    ∀ fe ∈ (dvCompute s).2, ¬ fe.1 = s.addr ∧ ∃ nb ∈ s.neighbors, nb.2.1 = fe.2 := by
  intro fe hmem
  simp only [dvCompute, List.mem_map] at hmem
  obtain ⟨r, hr, hre⟩ := hmem
  rw [List.mem_filterMap] at hr
  obtain ⟨dest, -, hrow⟩ := hr
  obtain ⟨hda, hr1, -, -, hp⟩ := dvRow_some hrow
  have hd1 : r.1 = fe.1 := congrArg Prod.fst hre
  have hp1 : r.2.2 = fe.2 := congrArg Prod.snd hre
  constructor
  · rw [← hd1, hr1]
    exact hda
  · refine bestFor_ports s dest fe.2 ?_
    rw [hp, hp1]

theorem dget_min_map (l : List (String × Rat)) (k : String) :
    dget (l.map (fun kv => (kv.1, min kv.2 16))) k = (dget l k).map (fun c => min c 16) :=
  dget_map_val (fun _ c => min c 16) l k

theorem dvHandleRouting_state (s : DVState) (port : Int) (src : String)
    (vec : List (String × PyVal)) :
    (dvHandleRouting s port src vec).state = s ∨
    (dvHandleRouting s port src vec).state =
      (dvRecompute { s with neighborVectors := dset s.neighborVectors src (dvSanitize vec) }).1 := by
  simp only [dvHandleRouting]
  split
  · exact Or.inl rfl
  · split
    · exact Or.inl rfl
    · split
      · exact Or.inl rfl
      · right
        split <;> rfl

theorem dvRecompute_inv {s : DVState} (h : DVInv s) : DVInv (dvRecompute s).1 := by
  have hd := dvCompute_dv_mem s h.links1 h.sanvecs
  have hf := dvCompute_fwd_mem s
  simp only [dvRecompute]
  split
  · refine ⟨?_, ?_, ?_, h.links1, h.sanvecs⟩
    · show dget ((dvCompute s).1.map (fun kv => (kv.1, min kv.2 16))) s.addr = some 0
      have h0 : dget (dvCompute s).1 s.addr = some 0 := by
        show dget ((s.addr, 0) :: _) s.addr = some 0
        rw [dget, if_pos rfl]
      rw [dget_min_map, h0]
      norm_num
    · intro d c hm
      rw [List.mem_map] at hm
      obtain ⟨kv, hkv, he⟩ := hm
      have hd1 : kv.1 = d := congrArg Prod.fst he
      have hc1 : min kv.2 16 = c := congrArg Prod.snd he
      rcases hd kv.1 kv.2 hkv with ⟨ha, hz⟩ | ⟨ha, h1c, h16⟩
      · have hc : c = 0 := by rw [← hc1, hz]; norm_num
        have hdd : d = s.addr := by rw [← hd1, ha]
        subst hc
        subst hdd
        exact ⟨le_refl 0, by norm_num, by simp [ha]⟩
      · have hc : c = kv.2 := by rw [← hc1, min_eq_left (le_of_lt h16)]
        have hdd : ¬ d = s.addr := by rw [← hd1]; exact ha
        subst hc
        refine ⟨by linarith, h16, ?_⟩
        constructor
        · intro h0
          exact absurd h0 (by linarith)
        · intro hda
          exact absurd hda hdd
    · exact dget_none_of_keys (fun fe hfe => (hf fe hfe).1)
  · exact h

theorem dvStep_inv {s : DVState} (h : DVInv s) (e : DVEvent) (hok : dvOkCost s e) :
    DVInv (dvStep s e).state := by
  cases e with
  | pktData port dst =>
    simp only [dvStep]
    cases dget s.forward dst <;> exact h
  | pktRouting port src content =>
    cases content with
    | none => exact h
    | some vec =>
      have h1 : DVInv { s with neighborVectors := dset s.neighborVectors src (dvSanitize vec) } := by
        refine ⟨h.self0, h.costs, h.fwdSelf, h.links1, ?_⟩
        intro nvv hnvv kv hkv
        rcases mem_dset hnvv with he | hm
        · subst he
          rw [show ((src, dvSanitize vec) : String × List (String × PyVal)).2
                = dvSanitize vec from rfl, dvSanitize, List.mem_map] at hkv
          obtain ⟨kv0, -, hkve⟩ := hkv
          have : sanitizeVal kv0.2 = kv.2 := congrArg Prod.snd hkve
          rw [← this]
          exact sanShape_sanitizeVal kv0.2
        · exact h.sanvecs nvv hm kv hkv
      show DVInv (dvHandleRouting s port src vec).state
      rcases dvHandleRouting_state s port src vec with he | he
      · rw [he]
        exact h
      · rw [he]
        exact dvRecompute_inv h1
  | newLink port ep cost =>
    have hcost : (1 : Int) ≤ cost := hok
    simp only [dvStep]
    cases hnv : dget s.neighborVectors ep with
    | some v0 =>
      have h1 : DVInv { s with neighbors := dset s.neighbors ep (port, cost) } := by
        refine ⟨h.self0, h.costs, h.fwdSelf, ?_, h.sanvecs⟩
        intro nb hnb
        rcases mem_dset hnb with he | hm
        · rw [he]
          exact hcost
        · exact h.links1 nb hm
      have h2 := dvRecompute_inv h1
      split <;> exact h2
    | none =>
      have h1 : DVInv { s with neighbors := dset s.neighbors ep (port, cost), neighborVectors := dset s.neighborVectors ep [(ep, PyVal.vint 0)] } := by
        refine ⟨h.self0, h.costs, h.fwdSelf, ?_, ?_⟩
        · intro nb hnb
          rcases mem_dset hnb with he | hm
          · rw [he]
            exact hcost
          · exact h.links1 nb hm
        · intro nvv hnvv kv hkv
          rcases mem_dset hnvv with he | hm
          · subst he
            simp only [List.mem_singleton] at hkv
            rw [show kv.2 = ((ep, PyVal.vint 0) : String × PyVal).2 from
                  congrArg Prod.snd hkv]
            exact Or.inl ⟨0, rfl, le_refl 0, by omega⟩
          · exact h.sanvecs nvv hm kv hkv
      have h2 := dvRecompute_inv h1
      split <;> exact h2
  | removeLink port =>
    simp only [dvStep]
    split
    · exact h
    · rename_i nb heq
      have h1 : DVInv (dvRemovePurged s port nb.1) := by
        refine ⟨?_, ?_, ?_, ?_, ?_⟩
        · refine dget_filter_keep h.self0 ?_
          show (!(dget s.forward s.addr == some port)) = true
          rw [h.fwdSelf]
          rfl
        · intro d c hm
          exact h.costs d c (List.mem_of_mem_filter hm)
        · exact dget_filter_none h.fwdSelf
        · intro nb2 hnb2
          exact h.links1 nb2 (List.mem_of_mem_filter hnb2)
        · intro nvv hnvv kv hkv
          exact h.sanvecs nvv (List.mem_of_mem_filter hnvv) kv hkv
      have h2 := dvRecompute_inv h1
      split <;> exact h2
  | time t =>
    simp only [dvStep]
    split
    · exact ⟨h.self0, h.costs, h.fwdSelf, h.links1, h.sanvecs⟩
    · exact h

theorem dvReach_inv {s : DVState} (h : DVReach dvOkCost s) : DVInv s := by
  induction h with
  | init addr hb =>
    refine ⟨dget_dset_self [] addr 0, ?_, rfl, ?_, ?_⟩
    · intro d c hm
      simp only [dvInit, List.mem_singleton] at hm
      have hd1 : d = addr := congrArg Prod.fst hm
      have hc1 : c = 0 := congrArg Prod.snd hm
      subst hd1
      subst hc1
      exact ⟨le_refl 0, by norm_num, by simp [dvInit]⟩
    · intro nb hnb
      cases hnb
    · intro nvv hnvv
      cases hnvv
  | step e hr hok ih => exact dvStep_inv ih e hok

/-! ## Claim C4 -/

/-- C4 (amended): over any trace of handler calls in which every new
link carries a positive integer cost (the data model's link costs; the
code itself never validates them), every cost `c` stored in `own_dv`
satisfies `0 ≤ c < 16`, and `c = 0` holds iff the destination is the
router's own address. -/
theorem dv_own_costs_bounded (s : DVState) (h : DVReach dvOkCost s) :
    ∀ d c, (d, c) ∈ s.dv → 0 ≤ c ∧ c < 16 ∧ (c = 0 ↔ d = s.addr) :=
  fun d c hm => (dvReach_inv h).costs d c hm

unseal Rat.add in
/-- C4 counterexample: the handlers accept a link cost of 0 (a
non-negative cost per the data model); after `handle_new_link(1, "B",
0)` on a fresh router A, `own_dv["B"] = 0` although B is not the
router's own address, refuting `c = 0 iff destination = self`. -/
theorem dv_zero_cost_link_cex :
    dget (dvStep (dvInit "A" 100) (.newLink 1 "B" 0)).state.dv "B" = some 0 ∧
    ¬ "B" = (dvStep (dvInit "A" 100) (.newLink 1 "B" 0)).state.addr :=
  ⟨by decide, by decide⟩

unseal Rat.add in
/-- Witness for C4 after one positive-cost link event. -/
theorem dv_own_costs_bounded_witness :
    0 ≤ (2 : Rat) ∧ (2 : Rat) < 16 ∧
    ((2 : Rat) = 0 ↔ "B" = (dvStep (dvInit "A" 100) (.newLink 1 "B" 2)).state.addr) :=
  dv_own_costs_bounded _
    (DVReach.step (.newLink 1 "B" 2) (DVReach.init "A" 100) (show (1 : Int) ≤ 2 by decide))
    "B" 2 (by decide)

/-! ## Claim C6 -/

theorem dvRecompute_neighbors (s : DVState) :
    (dvRecompute s).1.neighbors = s.neighbors := by
  simp only [dvRecompute]
  split <;> rfl

theorem dvRecompute_fwdN (s1 : DVState) :
    ∀ fe ∈ (dvRecompute s1).1.forward, ∃ nb ∈ s1.neighbors, nb.2.1 = fe.2 := by
  simp only [dvRecompute]
  split
  · intro fe hfe
    exact (dvCompute_fwd_mem s1 fe hfe).2
  · rename_i hch
    intro fe hfe
    have hfw : numDictEqB (dvCompute s1).2 s1.forward = true := by
      cases hA : numDictEqB (dvCompute s1).2 s1.forward with
      | true => rfl
      | false =>
        exfalso
        apply hch
        rw [hA]
        simp
    simp only [numDictEqB, Bool.and_eq_true] at hfw
    have hthis := List.all_eq_true.mp hfw.2 fe hfe
    have hget : dget (dvCompute s1).2 fe.1 = some fe.2 := eq_of_beq hthis
    exact (dvCompute_fwd_mem s1 (fe.1, fe.2) (dget_mem hget)).2

theorem dvRecompute_fwd_ports (s1 : DVState) :
    ∀ fe ∈ (dvRecompute s1).1.forward,
      fe ∈ s1.forward ∨ ∃ nb ∈ s1.neighbors, nb.2.1 = fe.2 := by
  simp only [dvRecompute]
  split
  · intro fe hfe
    exact Or.inr (dvCompute_fwd_mem s1 fe hfe).2
  · intro fe hfe
    exact Or.inl hfe

theorem dvStep_portInv {s : DVState} (h : DVPortInv s) (e : DVEvent)
    (hok : dvOkPort s e) : DVPortInv (dvStep s e).state := by
  cases e with
  | pktData port dst =>
    simp only [dvStep]
    cases dget s.forward dst <;> exact h
  | pktRouting port src content =>
    cases content with
    | none => exact h
    | some vec =>
      show DVPortInv (dvHandleRouting s port src vec).state
      rcases dvHandleRouting_state s port src vec with he | he
      · rw [he]
        exact h
      · rw [he]
        refine ⟨?_, ?_⟩
        · intro fe hfe
          have hx := dvRecompute_fwdN _ fe hfe
          rw [dvRecompute_neighbors]
          exact hx
        · intro nb1 h1 nb2 h2 hpp
          rw [dvRecompute_neighbors] at h1 h2
          exact h.inj nb1 h1 nb2 h2 hpp
  | newLink port ep cost =>
    have hinj1 : ∀ nb1 ∈ dset s.neighbors ep (port, cost),
        ∀ nb2 ∈ dset s.neighbors ep (port, cost), nb1.2.1 = nb2.2.1 → nb1.1 = nb2.1 := by
      intro nb1 h1 nb2 h2 hpp
      rcases mem_dset h1 with he1 | hm1 <;> rcases mem_dset h2 with he2 | hm2
      · rw [he1, he2]
      · exfalso
        apply hok nb2 hm2
        rw [← hpp, he1]
      · exfalso
        apply hok nb1 hm1
        rw [hpp, he2]
      · exact h.inj nb1 hm1 nb2 hm2 hpp
    simp only [dvStep]
    cases hnv : dget s.neighborVectors ep with
    | some v0 =>
      have hfin : DVPortInv (dvRecompute { s with neighbors := dset s.neighbors ep (port, cost) }).1 := by
        refine ⟨?_, ?_⟩
        · intro fe hfe
          have hx := dvRecompute_fwdN _ fe hfe
          rw [dvRecompute_neighbors]
          exact hx
        · intro nb1 h1 nb2 h2 hpp
          rw [dvRecompute_neighbors] at h1 h2
          exact hinj1 nb1 h1 nb2 h2 hpp
      split <;> exact hfin
    | none =>
      have hfin : DVPortInv (dvRecompute { s with neighbors := dset s.neighbors ep (port, cost), neighborVectors := dset s.neighborVectors ep [(ep, PyVal.vint 0)] }).1 := by
        refine ⟨?_, ?_⟩
        · intro fe hfe
          have hx := dvRecompute_fwdN _ fe hfe
          rw [dvRecompute_neighbors]
          exact hx
        · intro nb1 h1 nb2 h2 hpp
          rw [dvRecompute_neighbors] at h1 h2
          exact hinj1 nb1 h1 nb2 h2 hpp
      split <;> exact hfin
  | removeLink port =>
    simp only [dvStep]
    split
    · exact h
    · rename_i nb heq
      have hfin : DVPortInv (dvRecompute (dvRemovePurged s port nb.1)).1 := by
        refine ⟨?_, ?_⟩
        · intro fe hfe
          have hx := dvRecompute_fwdN _ fe hfe
          rw [dvRecompute_neighbors]
          exact hx
        · intro nb1 h1 nb2 h2 hpp
          rw [dvRecompute_neighbors] at h1 h2
          exact h.inj nb1 (List.mem_of_mem_filter h1) nb2 (List.mem_of_mem_filter h2) hpp
      split <;> exact hfin
  | time t =>
    simp only [dvStep]
    split
    · exact ⟨h.fwdN, h.inj⟩
    · exact h

theorem dvReachP_inv {s : DVState} (h : DVReach dvOkPort s) : DVPortInv s := by
  induction h with
  | init addr hb =>
    exact ⟨fun fe hfe => absurd hfe (List.not_mem_nil fe),
           fun nb1 h1 => absurd h1 (List.not_mem_nil nb1)⟩
  | step e hr hok ih => exact dvStep_portInv ih e hok

/-- C6: over any trace respecting the documented `on_new_link`
precondition (the port was previously unbound), after
`handle_remove_link(p)` returns no forwarding entry maps to port `p` —
whether or not the recompute reported a change, and also when the port
was unbound so the handler returned immediately — and the purge removes
from `own_dv` every destination whose forwarding entry used port `p`
before recomputation (`dvRemovePurged` is the exact state handed to
`_recompute_routes`). -/
theorem dv_remove_link_purges_port (s : DVState) (p : Int) (h : DVReach dvOkPort s) :
    (∀ fe ∈ (dvStep s (.removeLink p)).state.forward, fe.2 ≠ p) ∧
    (∀ r d, dget s.forward d = some p → dget (dvRemovePurged s p r).dv d = none) := by
  have hi := dvReachP_inv h
  constructor
  · intro fe hfe hfp
    cases heq : s.neighbors.find? (fun x => x.2.1 == p) with
    | none =>
      have hstate : (dvStep s (.removeLink p)).state = s := by
        simp only [dvStep, heq]
      rw [hstate] at hfe
      obtain ⟨nb, hnb, hp⟩ := hi.fwdN fe hfe
      have hno := List.find?_eq_none.mp heq nb hnb
      apply hno
      show (nb.2.1 == p) = true
      rw [hp, hfp]
      exact beq_self_eq_true p
    | some nb =>
      have hstate : (dvStep s (.removeLink p)).state
          = (dvRecompute (dvRemovePurged s p nb.1)).1 := by
        simp only [dvStep, heq]
        split <;> rfl
      rw [hstate] at hfe
      have hfind := List.find?_some heq
      have hnbp : nb.2.1 = p := eq_of_beq hfind
      have hnbm : nb ∈ s.neighbors := List.mem_of_find?_eq_some heq
      rcases dvRecompute_fwd_ports (dvRemovePurged s p nb.1) fe hfe with hold | ⟨nb2, hnb2, hp2⟩
      · have hkp := (List.mem_filter.mp hold).2
        rw [hfp] at hkp
        simp at hkp
      · have hnb2m : nb2 ∈ s.neighbors := List.mem_of_mem_filter hnb2
        have hkey : nb2.1 = nb.1 := hi.inj nb2 hnb2m nb hnbm (by rw [hp2, hfp, hnbp])
        have hkk := (List.mem_filter.mp hnb2).2
        rw [hkey] at hkk
        simp at hkk
  · intro r d hd
    refine dget_filter_of_false ?_
    intro v hv
    show (!(dget s.forward d == some p)) = false
    rw [hd]
    simp

theorem c6state_reach : DVReach dvOkPort c6state :=
  DVReach.step (.pktRouting 1 "B" (some [("B", PyVal.vint 0), ("C", PyVal.vint 1)]))
    (DVReach.step (.newLink 1 "B" 1) (DVReach.init "A" 100)
      (fun nb hnb => absurd hnb (List.not_mem_nil nb)))
    trivial

unseal Rat.add in
/-- Witness for C6: in `c6state` (A routes to B and C via port 1), the
purge for port 1 removes C from `own_dv`, and removing the unbound port
2 leaves no entry on port 2. -/
theorem dv_remove_link_purges_port_witness :
    dget (dvRemovePurged c6state 1 "B").dv "C" = none ∧ (1 : Int) ≠ 2 :=
  ⟨(dv_remove_link_purges_port c6state 1 c6state_reach).2 "B" "C" (by decide),
   (dv_remove_link_purges_port c6state 2 c6state_reach).1 ("B", 1) (by decide)⟩

end Routing
